import Mathlib

/-!
Shallow embedding of the gospeccy peripheral front-end
(src/spectrum/memory.go and src/output/sdl/sdl.go).

The keyboard actor owns an 8-row active-low key matrix (`keyStates [8]byte`).
Rows are indexed by `Fin 8`; a row value is a `Nat` kept below 256 (Go `byte`).
-/

/-- Go `type keyCell struct { row, mask byte }` (src/spectrum/memory.go). -/
structure keyCell where
  row : Nat
  mask : Nat
deriving DecidableEq

/- Logical key codes, Go `const ( KEY_1 = iota ... KEY_Space )`. -/

def KEY_1 : Nat := 0
def KEY_2 : Nat := 1
def KEY_3 : Nat := 2
def KEY_4 : Nat := 3
def KEY_5 : Nat := 4
def KEY_6 : Nat := 5
def KEY_7 : Nat := 6
def KEY_8 : Nat := 7
def KEY_9 : Nat := 8
def KEY_0 : Nat := 9
def KEY_Q : Nat := 10
def KEY_W : Nat := 11
def KEY_E : Nat := 12
def KEY_R : Nat := 13
def KEY_T : Nat := 14
def KEY_Y : Nat := 15
def KEY_U : Nat := 16
def KEY_I : Nat := 17
def KEY_O : Nat := 18
def KEY_P : Nat := 19
def KEY_A : Nat := 20
def KEY_S : Nat := 21
def KEY_D : Nat := 22
def KEY_F : Nat := 23
def KEY_G : Nat := 24
def KEY_H : Nat := 25
def KEY_J : Nat := 26
def KEY_K : Nat := 27
def KEY_L : Nat := 28
def KEY_Enter : Nat := 29
def KEY_CapsShift : Nat := 30
def KEY_Z : Nat := 31
def KEY_X : Nat := 32
def KEY_C : Nat := 33
def KEY_V : Nat := 34
def KEY_B : Nat := 35
def KEY_N : Nat := 36
def KEY_M : Nat := 37
def KEY_SymbolShift : Nat := 38
def KEY_Space : Nat := 39

/-- Association-list lookup, modelling a read from a Go map whose keys are
distinct (both `keyCodes` and `SDL_KeyMap` have distinct keys, so the
read is order-independent and this lookup is an exact model). -/
def alookup {α β : Type} [DecidableEq α] : List (α × β) → α → Option β
  | [], _ => none
  | (a, c) :: rest, k => if k = a then some c else alookup rest k

/-- Go `var keyCodes = map[uint]keyCell{...}` (src/spectrum/memory.go). -/
def keyCodes : List (Nat × keyCell) := [
  (KEY_1, ⟨3, 0x01⟩), (KEY_2, ⟨3, 0x02⟩), (KEY_3, ⟨3, 0x04⟩),
  (KEY_4, ⟨3, 0x08⟩), (KEY_5, ⟨3, 0x10⟩), (KEY_6, ⟨4, 0x10⟩),
  (KEY_7, ⟨4, 0x08⟩), (KEY_8, ⟨4, 0x04⟩), (KEY_9, ⟨4, 0x02⟩),
  (KEY_0, ⟨4, 0x01⟩),
  (KEY_Q, ⟨2, 0x01⟩), (KEY_W, ⟨2, 0x02⟩), (KEY_E, ⟨2, 0x04⟩),
  (KEY_R, ⟨2, 0x08⟩), (KEY_T, ⟨2, 0x10⟩), (KEY_Y, ⟨5, 0x10⟩),
  (KEY_U, ⟨5, 0x08⟩), (KEY_I, ⟨5, 0x04⟩), (KEY_O, ⟨5, 0x02⟩),
  (KEY_P, ⟨5, 0x01⟩),
  (KEY_A, ⟨1, 0x01⟩), (KEY_S, ⟨1, 0x02⟩), (KEY_D, ⟨1, 0x04⟩),
  (KEY_F, ⟨1, 0x08⟩), (KEY_G, ⟨1, 0x10⟩), (KEY_H, ⟨6, 0x10⟩),
  (KEY_J, ⟨6, 0x08⟩), (KEY_K, ⟨6, 0x04⟩), (KEY_L, ⟨6, 0x02⟩),
  (KEY_Enter, ⟨6, 0x01⟩),
  (KEY_CapsShift, ⟨0, 0x01⟩), (KEY_Z, ⟨0, 0x02⟩), (KEY_X, ⟨0, 0x04⟩),
  (KEY_C, ⟨0, 0x08⟩), (KEY_V, ⟨0, 0x10⟩), (KEY_B, ⟨7, 0x10⟩),
  (KEY_N, ⟨7, 0x08⟩), (KEY_M, ⟨7, 0x04⟩), (KEY_SymbolShift, ⟨7, 0x02⟩),
  (KEY_Space, ⟨7, 0x01⟩)]

/-- The key matrix: Go `keyStates [8]byte`. -/
abbrev KeyStates := Fin 8 → Nat

/-- Go `SetKeyState(row uint, state byte)`: lock-protected raw row write. -/
def SetKeyState (s : KeyStates) (row : Nat) (v : Nat) : KeyStates :=
  fun r => if (r : Nat) = row then v else s r

/-- Go `GetKeyState(row uint) byte`: lock-protected raw row read. -/
def GetKeyState (s : KeyStates) (row : Fin 8) : Nat := s row

/-- Go `reset()`: `for row := 0; row < 8; row++ { SetKeyState(row, 0xff) }`. -/
def resetKeyboard (s : KeyStates) : KeyStates :=
  (List.range 8).foldl (fun t row => SetKeyState t row 0xff) s

/-- Matrix state produced by Go `NewKeyboard()`: the zero-valued
`Keyboard{}` (all rows 0) followed by `reset()`. -/
def NewKeyboardStates : KeyStates := resetKeyboard (fun _ => 0)

/-- The all-released matrix (value of every row after reset). -/
def initialKeyStates : KeyStates := fun _ => 0xff

/-- Go `KeyDown(logicalKeyCode uint)`:
`keyStates[keyCode.row] &= ^keyCode.mask` when the key is mapped,
no-op otherwise.  Go byte complement `^m` is `0xff ^^^ m`. -/
def KeyDown (s : KeyStates) (code : Nat) : KeyStates :=
  match alookup keyCodes code with
  | some cell => fun r => if (r : Nat) = cell.row then s r &&& (0xff ^^^ cell.mask) else s r
  | none => s

/-- Go `KeyUp(logicalKeyCode uint)`:
`keyStates[keyCode.row] |= keyCode.mask` when the key is mapped. -/
def KeyUp (s : KeyStates) (code : Nat) : KeyStates :=
  match alookup keyCodes code with
  | some cell => fun r => if (r : Nat) = cell.row then s r ||| cell.mask else s r
  | none => s

/-- Go `var SDL_KeyMap = map[string][]uint{...}` (src/spectrum/memory.go):
device key name to sequence of logical keys. -/
def SDL_KeyMap : List (String × List Nat) := [
  ("0", [KEY_0]), ("1", [KEY_1]), ("2", [KEY_2]), ("3", [KEY_3]),
  ("4", [KEY_4]), ("5", [KEY_5]), ("6", [KEY_6]), ("7", [KEY_7]),
  ("8", [KEY_8]), ("9", [KEY_9]),
  ("a", [KEY_A]), ("b", [KEY_B]), ("c", [KEY_C]), ("d", [KEY_D]),
  ("e", [KEY_E]), ("f", [KEY_F]), ("g", [KEY_G]), ("h", [KEY_H]),
  ("i", [KEY_I]), ("j", [KEY_J]), ("k", [KEY_K]), ("l", [KEY_L]),
  ("m", [KEY_M]), ("n", [KEY_N]), ("o", [KEY_O]), ("p", [KEY_P]),
  ("q", [KEY_Q]), ("r", [KEY_R]), ("s", [KEY_S]), ("t", [KEY_T]),
  ("u", [KEY_U]), ("v", [KEY_V]), ("w", [KEY_W]), ("x", [KEY_X]),
  ("y", [KEY_Y]), ("z", [KEY_Z]),
  ("return", [KEY_Enter]), ("space", [KEY_Space]),
  ("left shift", [KEY_CapsShift]), ("right shift", [KEY_CapsShift]),
  ("left ctrl", [KEY_SymbolShift]), ("right ctrl", [KEY_SymbolShift]),
  ("left", [KEY_CapsShift, KEY_5]), ("down", [KEY_CapsShift, KEY_6]),
  ("up", [KEY_CapsShift, KEY_7]), ("right", [KEY_CapsShift, KEY_8]),
  ("backspace", [KEY_CapsShift, KEY_0]),
  ("-", [KEY_SymbolShift, KEY_J]), ("=", [KEY_SymbolShift, KEY_L]),
  ("[", [KEY_SymbolShift, KEY_8]), ("]", [KEY_SymbolShift, KEY_9]),
  (";", [KEY_SymbolShift, KEY_O]), ("'", [KEY_SymbolShift, KEY_7]),
  (",", [KEY_SymbolShift, KEY_N]), (".", [KEY_SymbolShift, KEY_M]),
  ("/", [KEY_SymbolShift, KEY_V]),
  ("[0]", [KEY_0]), ("[1]", [KEY_1]), ("[2]", [KEY_2]), ("[3]", [KEY_3]),
  ("[4]", [KEY_4]), ("[5]", [KEY_5]), ("[6]", [KEY_6]), ("[7]", [KEY_7]),
  ("[8]", [KEY_8]), ("[9]", [KEY_9]),
  ("[*]", [KEY_SymbolShift, KEY_B]), ("[-]", [KEY_SymbolShift, KEY_J]),
  ("[+]", [KEY_SymbolShift, KEY_K]), ("[/]", [KEY_SymbolShift, KEY_V])]

/-- The marking step of the startup self-check: Go
`if len(seq) == 1 { used[seq[0]] = true }`, i.e. the logical key `k`
is marked used exactly when some map entry has value `[k]`. -/
def keyIsUsed (kmap : List (String × List Nat)) (k : Nat) : Bool :=
  kmap.any (fun q => decide (q.2 = [k]))

/-- The panic condition of Go `func init()` in src/spectrum/memory.go.
The Go code builds `used` with one `false` entry per key of `codes`, then
sets `used[seq[0]] = true` for every length-1 sequence of `kmap`, and
panics when the length of `codes` differs from 40 or some `used` value is
`false`.  A singleton sequence whose key is absent from `codes` would only
insert a `true` entry, which can never cause a panic, so the panic outcome
is exactly this predicate. -/
def startupPanics (codes : List (Nat × keyCell)) (kmap : List (String × List Nat)) : Bool :=
  (!(codes.length == 40)) || codes.any (fun p => !(keyIsUsed kmap p.1))

/-- The startup condition as the spec words it (a key merely has to be
reached by some sequence of the symbol table, at any position): used to
compare the spec sentence against the implemented check. -/
def specReachedPanics (codes : List (Nat × keyCell)) (kmap : List (String × List Nat)) : Bool :=
  (!(codes.length == 40)) || codes.any (fun p => !(kmap.any (fun q => p.1 ∈ q.2)))

/-- Keyboard part of Go `sdlEventLoop` (src/output/sdl/sdl.go), key-down
case: look the key name up in `SDL_KeyMap`; when mapped, apply `KeyDown`
to the sequence in listed order (`for i := 0; i < len(sequence); i++`). -/
def sdlKeyDownEvent (s : KeyStates) (keyName : String) : KeyStates :=
  match alookup SDL_KeyMap keyName with
  | some sequence => sequence.foldl KeyDown s
  | none => s

/-- Key-up case of Go `sdlEventLoop`: apply `KeyUp` to the mapped sequence
in reverse order (`for i := len(sequence) - 1; i >= 0; i--`). -/
def sdlKeyUpEvent (s : KeyStates) (keyName : String) : KeyStates :=
  match alookup SDL_KeyMap keyName with
  | some sequence => sequence.reverse.foldl KeyUp s
  | none => s

/-- A `KeyDown` or `KeyUp` call on the keyboard actor. -/
inductive KeyEvent where
  | down (k : Nat)
  | up (k : Nat)
deriving DecidableEq

def applyKeyEvent (s : KeyStates) : KeyEvent → KeyStates
  | .down k => KeyDown s k
  | .up k => KeyUp s k

def applyKeyEvents (s : KeyStates) (es : List KeyEvent) : KeyStates :=
  es.foldl applyKeyEvent s

/-- Modelled from the spec: the `RomType` enumeration lives outside src/
(only the constant `ROM48` is referenced by the code under src/, in an
equality test); the spec says there is one supported ROM kind and that
every other value is a no-op, so the type is modelled as `Nat` with
`ROM48` one distinguished value. -/
abbrev RomType := Nat

def ROM48 : RomType := 0

/-- The `Cmd_SendLoad` case of Go `commandLoop` (src/spectrum/memory.go):
the exact sequence of `KeyDown`/`KeyUp` calls it performs (the inter-key
delays carry no matrix effect and are not modelled). -/
def sendLoadEvents (romType : RomType) : List KeyEvent :=
  if romType = ROM48 then
    [.down KEY_J, .up KEY_J,
     .down KEY_SymbolShift,
     .down KEY_P, .up KEY_P,
     .down KEY_P, .up KEY_P,
     .up KEY_SymbolShift,
     .down KEY_Enter, .up KEY_Enter]
  else []

/-- A buffered Go channel as used for the `done` completion channel:
a capacity fixed at `make` time and the values sent but not yet consumed,
oldest first.  Each completion value is tagged with the logical key of the
`Cmd_KeyPress` whose processing emitted it, to state per-key accounting. -/
structure BufChan where
  capacity : Nat
  buffered : List Nat
deriving DecidableEq

/-- Go `make(chan bool, n)`. -/
def mkChan (n : Nat) : BufChan := ⟨n, []⟩

/-- A send on a buffered channel with no consumer running: succeeds
without blocking exactly when the buffer is not full. -/
def chanSend (c : BufChan) (v : Nat) : Option BufChan :=
  if c.buffered.length < c.capacity then some ⟨c.capacity, c.buffered ++ [v]⟩ else none

/-- The keyboard actor as seen by `KeyPressSequence`: its matrix and the
`Cmd_KeyPress` commands pending on `CommandChannel`, in submission order
(the command loop consumes them strictly one at a time). -/
structure KeyboardActor where
  matrix : KeyStates
  queue : List Nat

/-- Go `KeyPressSequence(logicalKeyCodes ...uint) chan bool`:
`done := make(chan bool, len(logicalKeyCodes))`, then one `Cmd_KeyPress`
per key is submitted to the command channel, in argument order; the
`done` channel is returned. -/
def KeyPressSequence (kb : KeyboardActor) (ks : List Nat) : KeyboardActor × BufChan :=
  (⟨kb.matrix, kb.queue ++ ks⟩, mkChan ks.length)

/-- The `Cmd_KeyPress` case of Go `commandLoop`, run over the pending
commands with nobody consuming `done`: each command performs
`KeyDown`, `KeyUp`, then `done <- true`.  The result is `none` if some
`done <- true` would block (buffer full). -/
def runCommandLoop : KeyStates → BufChan → List Nat → Option (KeyStates × BufChan)
  | s, c, [] => some (s, c)
  | s, c, k :: rest =>
    match chanSend c k with
    | some c2 => runCommandLoop (KeyUp (KeyDown s k) k) c2 rest
    | none => none

/-- Commands sent to the emulation core by the audio-reconfiguration path
(src/output/sdl/sdl.go). -/
inductive SpeccyAudioCmd where
  | closeAllAudioReceivers
  | addAudioReceiver
deriving DecidableEq

/-- Audio fields of Go `SDLRenderer`. -/
structure RendererAudio where
  audio : Bool
  hqAudio : Bool
  audioFreq : Nat
deriving DecidableEq

/-- Go `setAudioParameters(enable, hqAudio bool, freq uint)`:
stores the new configuration, always sends `Cmd_CloseAllAudioReceivers`
(blocking ack), and when audio is enabled and `NewSDLAudio` succeeds
(`newAudioOK`, an SDL-backend outcome outside this model) sends a second
`Cmd_CloseAllAudioReceivers` followed by `Cmd_AddAudioReceiver`.
Returns the new renderer state and the command list in emission order. -/
def setAudioParameters (_r : RendererAudio) (enable hq : Bool) (freq : Nat)
    (newAudioOK : Bool) : RendererAudio × List SpeccyAudioCmd :=
  let r2 : RendererAudio := ⟨enable, hq, freq⟩
  if enable then
    if newAudioOK then
      (r2, [.closeAllAudioReceivers, .closeAllAudioReceivers, .addAudioReceiver])
    else
      (r2, [.closeAllAudioReceivers])
  else
    (r2, [.closeAllAudioReceivers])

/-- Go `SetAudioFreq(freq uint)`: delegates to `setAudioParameters` only
when the frequency actually changes. -/
def SetAudioFreq (r : RendererAudio) (freq : Nat) (newAudioOK : Bool) :
    RendererAudio × List SpeccyAudioCmd :=
  if r.audioFreq ≠ freq then setAudioParameters r r.audio r.hqAudio freq newAudioOK
  else (r, [])

/-- Go `SetAudioQuality(hqAudio bool)`: delegates only when the quality
flag actually changes. -/
def SetAudioQuality (r : RendererAudio) (hq : Bool) (newAudioOK : Bool) :
    RendererAudio × List SpeccyAudioCmd :=
  if r.hqAudio ≠ hq then setAudioParameters r r.audio hq r.audioFreq newAudioOK
  else (r, [])

/-- Go `EnableAudio(enable bool)`: unconditional delegation. -/
def EnableAudio (r : RendererAudio) (enable : Bool) (newAudioOK : Bool) :
    RendererAudio × List SpeccyAudioCmd :=
  setAudioParameters r enable r.hqAudio r.audioFreq newAudioOK

/- Modelled from the spec: the Kempston joystick state (owned by
`speccy.Joystick`, outside src/) is one byte of five active-high bits,
4 direction bits plus 1 fire bit (spec, joystick convention);
`KempstonDown` sets a bit, `KempstonUp` clears it. -/

def KEMPSTON_RIGHT : Nat := 0x01
def KEMPSTON_LEFT : Nat := 0x02
def KEMPSTON_DOWN : Nat := 0x04
def KEMPSTON_UP : Nat := 0x08
def KEMPSTON_FIRE : Nat := 0x10

/-- Modelled from the spec: pressing sets the bit. -/
def KempstonDown (s mask : Nat) : Nat := s ||| mask

/-- Modelled from the spec: releasing clears the bit (byte complement). -/
def KempstonUp (s mask : Nat) : Nat := s &&& (0xff ^^^ mask)

/-- `sdl.JoyAxisEvent` case of Go `sdlEventLoop` (src/output/sdl/sdl.go):
axis 0 is horizontal (positive value is the right direction), axis 1 is
vertical (positive value is mapped to the up-direction bit); value 0
releases both directions of the axis; other axes are ignored. -/
def handleJoyAxisEvent (s : Nat) (axis : Nat) (value : Int) : Nat :=
  if axis = 0 then
    if value > 0 then KempstonDown s KEMPSTON_RIGHT
    else if value < 0 then KempstonDown s KEMPSTON_LEFT
    else KempstonUp (KempstonUp s KEMPSTON_RIGHT) KEMPSTON_LEFT
  else if axis = 1 then
    if value > 0 then KempstonDown s KEMPSTON_UP
    else if value < 0 then KempstonDown s KEMPSTON_DOWN
    else KempstonUp (KempstonUp s KEMPSTON_UP) KEMPSTON_DOWN
  else s

/-- `sdl.JoyButtonEvent` case of Go `sdlEventLoop`: button 0 drives the
fire bit (pressed when `e.State > 0`); other buttons are ignored. -/
def handleJoyButtonEvent (s : Nat) (button : Nat) (st : Nat) : Nat :=
  if button = 0 then
    if st > 0 then KempstonDown s KEMPSTON_FIRE else KempstonUp s KEMPSTON_FIRE
  else s


/-- A matrix state with exactly one key pressed: row 3 reads 0xfe, i.e.
`KEY_1` (row 3, mask 0x01) is held down; every other row is released. -/
def pressedOneStates : KeyStates :=
  fun r => if r = (3 : Fin 8) then 0xfe else 0xff

/-- A matrix state with `KEY_A` (row 1, mask 0x01) held down. -/
def pressedAStates : KeyStates :=
  fun r => if r = (1 : Fin 8) then 0xfe else 0xff

/-- Number of matrix bits (over the 8 rows times 8 bit positions) whose
value differs between two matrix states. -/
def changedBitCount (s t : KeyStates) : Nat :=
  (List.finRange 8).foldl
    (fun acc r =>
      acc + ((List.range 8).filter (fun j => (s r).testBit j != (t r).testBit j)).length) 0

/-- Whether the key mapped to `k` (if any) reads as released in `s`:
the matrix bit of its cell is 1. -/
def keyReleasedB (s : KeyStates) (k : Nat) : Bool :=
  match alookup keyCodes k with
  | some cell =>
    decide (∀ r : Fin 8, (r : Nat) = cell.row → s r &&& cell.mask = cell.mask)
  | none => true

/-- Two key cells address different matrix bits: different rows, or
disjoint masks within one row. -/
def cellsDisjoint (c1 c2 : keyCell) : Bool :=
  (!(c1.row == c2.row)) || (c1.mask &&& c2.mask == 0)

/-- Shape check used to settle the mapped-sequence claims over the
concrete `SDL_KeyMap` values: every value is one mapped key, or two
mapped keys whose cells address distinct matrix bits. -/
def seqOK : List Nat → Bool
  | [k] => (alookup keyCodes k).isSome
  | [k1, k2] =>
    match alookup keyCodes k1, alookup keyCodes k2 with
    | some c1, some c2 => cellsDisjoint c1 c2
    | _, _ => false
  | _ => false

/-- The renderer audio state of the C3 scenario: audio enabled at
44100 Hz (the default playback frequency), high quality. -/
def r44 : RendererAudio := ⟨true, true, 44100⟩

/-! ### Helper lemmas -/

theorem alookup_mem {α β : Type} [DecidableEq α] :
    ∀ (l : List (α × β)) (k : α) (b : β), alookup l k = some b → (k, b) ∈ l := by
  intro l
  induction l with
  | nil => intro k b h; simp [alookup] at h
  | cons p rest ih =>
    intro k b h
    obtain ⟨a, c⟩ := p
    by_cases hk : k = a
    · subst hk
      simp [alookup] at h
      simp [h]
    · simp only [alookup, if_neg hk] at h
      exact List.mem_cons_of_mem _ (ih k b h)

theorem testBit_ff {j : Nat} (hj : j < 8) : (0xff : Nat).testBit j = true := by
  have h : (0xff : Nat) = 2 ^ 8 - 1 := by norm_num
  rw [h, Nat.testBit_two_pow_sub_one]
  simpa using hj

theorem testBit_ge_eight {x j : Nat} (hx : x < 256) (hj : 8 ≤ j) : x.testBit j = false := by
  apply Nat.testBit_lt_two_pow
  calc x < 256 := hx
    _ = 2 ^ 8 := by norm_num
    _ ≤ 2 ^ j := Nat.pow_le_pow_right (by norm_num) hj

/-- Clearing then setting a byte-sized mask restores a byte in which the
mask was fully set. -/
theorem or_and_not_restore {x m : Nat} (hx : x < 256) (hm : m < 256)
    (h : x &&& m = m) : (x &&& (0xff ^^^ m)) ||| m = x := by
  apply Nat.eq_of_testBit_eq
  intro j
  have hxm : (x.testBit j && m.testBit j) = m.testBit j := by
    have h2 := congrArg (fun t => t.testBit j) h
    simpa [Nat.testBit_and] using h2
  simp only [Nat.testBit_or, Nat.testBit_and, Nat.testBit_xor]
  by_cases hj : j < 8
  · rw [testBit_ff hj]
    cases hmj : m.testBit j
    · simp
    · rw [hmj] at hxm
      simp only [Bool.and_true] at hxm
      simp [hxm]
  · push_neg at hj
    rw [testBit_ge_eight hx hj, testBit_ge_eight hm hj,
      testBit_ge_eight (by norm_num) hj]
    simp

/-- Clearing one byte-sized mask does not disturb a disjoint mask that
was fully set. -/
theorem and_not_preserves_disjoint {x m1 m2 : Nat} (hm2 : m2 < 256)
    (hd : m1 &&& m2 = 0) (h : x &&& m2 = m2) :
    (x &&& (0xff ^^^ m1)) &&& m2 = m2 := by
  apply Nat.eq_of_testBit_eq
  intro j
  have hxm : (x.testBit j && m2.testBit j) = m2.testBit j := by
    have h2 := congrArg (fun t => t.testBit j) h
    simpa [Nat.testBit_and] using h2
  have hdm : (m1.testBit j && m2.testBit j) = false := by
    have h2 := congrArg (fun t => t.testBit j) hd
    simpa [Nat.testBit_and] using h2
  simp only [Nat.testBit_and, Nat.testBit_xor]
  cases hmj : m2.testBit j
  · simp
  · have hj : j < 8 := by
      by_contra hj
      push_neg at hj
      rw [testBit_ge_eight hm2 hj] at hmj
      cases hmj
    rw [hmj] at hxm hdm
    simp only [Bool.and_true] at hxm hdm
    rw [testBit_ff hj, hxm, hdm]
    simp

theorem KeyDown_apply {s : KeyStates} {k : Nat} {cell : keyCell}
    (hl : alookup keyCodes k = some cell) (r : Fin 8) :
    KeyDown s k r = if (r : Nat) = cell.row then s r &&& (0xff ^^^ cell.mask) else s r := by
  unfold KeyDown
  rw [hl]

theorem KeyUp_apply {s : KeyStates} {k : Nat} {cell : keyCell}
    (hl : alookup keyCodes k = some cell) (r : Fin 8) :
    KeyUp s k r = if (r : Nat) = cell.row then s r ||| cell.mask else s r := by
  unfold KeyUp
  rw [hl]

/-- Every cell of the concrete key table: row below 8, mask a single bit
below bit 8. -/
theorem keyCodes_cells :
    ∀ p ∈ keyCodes, p.2.row < 8 ∧ p.2.mask < 256 ∧ ∃ i < 8, p.2.mask = 2 ^ i := by
  decide

theorem cell_facts {k : Nat} {cell : keyCell} (hl : alookup keyCodes k = some cell) :
    cell.row < 8 ∧ cell.mask < 256 ∧ ∃ i < 8, cell.mask = 2 ^ i :=
  keyCodes_cells (k, cell) (alookup_mem _ _ _ hl)

theorem KeyDown_bound {s : KeyStates} {k : Nat} (hb : ∀ r, s r < 256) (r : Fin 8) :
    KeyDown s k r < 256 := by
  unfold KeyDown
  cases h : alookup keyCodes k with
  | none => exact hb r
  | some cell =>
    by_cases hr : (r : Nat) = cell.row
    · simp only [if_pos hr]
      exact lt_of_le_of_lt Nat.and_le_left (hb r)
    · simp only [if_neg hr]
      exact hb r

/-- `KeyDown` then `KeyUp` of a mapped key restores the matrix, provided
the key read as released beforehand. -/
theorem keyDownUp_restores {s : KeyStates} {k : Nat} {cell : keyCell}
    (hl : alookup keyCodes k = some cell)
    (hb : ∀ r, s r < 256)
    (hrel : ∀ r : Fin 8, (r : Nat) = cell.row → s r &&& cell.mask = cell.mask) :
    KeyUp (KeyDown s k) k = s := by
  funext r
  have hm : cell.mask < 256 := (cell_facts hl).2.1
  rw [KeyUp_apply hl, KeyDown_apply hl]
  by_cases hr : (r : Nat) = cell.row
  · simp only [if_pos hr]
    exact or_and_not_restore (hb r) hm (hrel r hr)
  · simp only [if_neg hr]

/-- `KeyDown` of one key does not disturb the released reading of a key
whose cell addresses a different matrix bit. -/
theorem KeyDown_preserves_released {s : KeyStates} {k1 : Nat} {c1 c2 : keyCell}
    (hl1 : alookup keyCodes k1 = some c1)
    (hm2 : c2.mask < 256)
    (hd : cellsDisjoint c1 c2 = true)
    (hrel : ∀ r : Fin 8, (r : Nat) = c2.row → s r &&& c2.mask = c2.mask) :
    ∀ r : Fin 8, (r : Nat) = c2.row → KeyDown s k1 r &&& c2.mask = c2.mask := by
  intro r hr
  rw [KeyDown_apply hl1]
  by_cases h1 : (r : Nat) = c1.row
  · simp only [if_pos h1]
    have hrow : c1.row = c2.row := by rw [← h1, hr]
    have hmask : c1.mask &&& c2.mask = 0 := by
      unfold cellsDisjoint at hd
      rcases (Bool.or_eq_true _ _).mp hd with hne | hz
      · have hne2 : c1.row ≠ c2.row := by simpa using hne
        exact absurd hrow hne2
      · exact eq_of_beq hz
    exact and_not_preserves_disjoint hm2 hmask (hrel r hr)
  · simp only [if_neg h1]
    exact hrel r hr

theorem keyReleasedB_spec {s : KeyStates} {k : Nat} {cell : keyCell}
    (hl : alookup keyCodes k = some cell) (h : keyReleasedB s k = true) :
    ∀ r : Fin 8, (r : Nat) = cell.row → s r &&& cell.mask = cell.mask := by
  unfold keyReleasedB at h
  rw [hl] at h
  exact of_decide_eq_true h

/-- Pressing two bit-distinct keys and releasing them in reverse order
restores a matrix in which both read as released. -/
theorem pair_cycle {s : KeyStates} {k1 k2 : Nat} {c1 c2 : keyCell}
    (hl1 : alookup keyCodes k1 = some c1)
    (hl2 : alookup keyCodes k2 = some c2)
    (hb : ∀ r, s r < 256)
    (hd : cellsDisjoint c1 c2 = true)
    (h1 : ∀ r : Fin 8, (r : Nat) = c1.row → s r &&& c1.mask = c1.mask)
    (h2 : ∀ r : Fin 8, (r : Nat) = c2.row → s r &&& c2.mask = c2.mask) :
    KeyUp (KeyUp (KeyDown (KeyDown s k1) k2) k2) k1 = s := by
  have hm2 : c2.mask < 256 := (cell_facts hl2).2.1
  have hs1b : ∀ r, KeyDown s k1 r < 256 := fun r => KeyDown_bound hb r
  have hs1rel := KeyDown_preserves_released hl1 hm2 hd h2
  rw [keyDownUp_restores hl2 hs1b hs1rel]
  exact keyDownUp_restores hl1 hb h1

/-- Every mapped symbol sequence of the concrete table is one mapped key
or two mapped keys addressing distinct matrix bits. -/
theorem SDL_KeyMap_seqOK : ∀ q ∈ SDL_KeyMap, seqOK q.2 = true := by
  decide

/-- The command loop drains its pending `Cmd_KeyPress` commands without
any completion send ever blocking, as long as the channel has room for
them all; the final buffer holds one completion per command, in order. -/
theorem runCommandLoop_total :
    ∀ (pending : List Nat) (s : KeyStates) (c : BufChan),
      c.buffered.length + pending.length ≤ c.capacity →
      ∃ s2, runCommandLoop s c pending = some (s2, ⟨c.capacity, c.buffered ++ pending⟩) := by
  intro pending
  induction pending with
  | nil =>
    intro s c _
    exact ⟨s, by simp [runCommandLoop]⟩
  | cons k rest ih =>
    intro s c h
    have hlt : c.buffered.length < c.capacity := by
      simp only [List.length_cons] at h
      omega
    have hsend : chanSend c k = some ⟨c.capacity, c.buffered ++ [k]⟩ := by
      simp [chanSend, hlt]
    obtain ⟨s2, h2⟩ := ih (KeyUp (KeyDown s k) k) ⟨c.capacity, c.buffered ++ [k]⟩
      (by simp only [List.length_append, List.length_cons] at h ⊢; simp; omega)
    refine ⟨s2, ?_⟩
    simp only [runCommandLoop, hsend]
    rw [h2]
    simp

theorem testBit_or_pow_self {x i : Nat} : (x ||| 2 ^ i).testBit i = true := by
  simp [Nat.testBit_or, Nat.testBit_two_pow_self]

theorem testBit_or_pow_ne {x i j : Nat} (h : i ≠ j) :
    (x ||| 2 ^ i).testBit j = x.testBit j := by
  simp [Nat.testBit_or, Nat.testBit_two_pow_of_ne h]

theorem testBit_andC_pow_self {x i : Nat} (hi : i < 8) :
    (x &&& (0xff ^^^ 2 ^ i)).testBit i = false := by
  simp [Nat.testBit_and, Nat.testBit_xor, testBit_ff hi, Nat.testBit_two_pow_self]

theorem testBit_andC_pow_ne {x i j : Nat} (hj : j < 8) (h : i ≠ j) :
    (x &&& (0xff ^^^ 2 ^ i)).testBit j = x.testBit j := by
  simp [Nat.testBit_and, Nat.testBit_xor, testBit_ff hj, Nat.testBit_two_pow_of_ne h]

/-! ### Claim theorems -/

/-- C9: after keyboard construction (`NewKeyboard`) or `reset`, every one
of the 8 rows of the key matrix reads exactly 0xff (every key released). -/
theorem claim_C9 :
    (∀ r : Fin 8, NewKeyboardStates r = 0xff) ∧
    (∀ (s : KeyStates) (r : Fin 8), GetKeyState (resetKeyboard s) r = 0xff) := by
  constructor
  · decide
  · intro s r
    fin_cases r <;> rfl

/-- C10: `SetAudioFreq` at the currently configured frequency and
`SetAudioQuality` at the currently configured quality flag send no
commands to the emulation core and leave the renderer audio state
unchanged. -/
theorem claim_C10 :
    ∀ (r : RendererAudio) (newAudioOK : Bool),
      SetAudioFreq r r.audioFreq newAudioOK = (r, []) ∧
      SetAudioQuality r r.hqAudio newAudioOK = (r, []) := by
  intro r newAudioOK
  constructor <;> simp [SetAudioFreq, SetAudioQuality]

/-- C1, counterexample: removing the keypad entry "[0]" from the symbol
table (one entry fewer, the 40-key table unchanged) does not make the
startup self-check abort, because the singleton entry "0" still covers
`KEY_0` — contradicting the claim that removing any one entry aborts. -/
theorem claim_C1_counterexample :
    (SDL_KeyMap.filter (fun q => !(q.1 == "[0]"))).length + 1 = SDL_KeyMap.length ∧
    startupPanics keyCodes (SDL_KeyMap.filter (fun q => !(q.1 == "[0]"))) = false := by
  decide

/-- C1, amended: the self-check aborts exactly when the key table does
not have 40 entries or some logical key is not covered by a single-key
sequence of the symbol table.  On the shipped tables it passes; removing
the only singleton entry of a key (e.g. "a") aborts, while removing a
redundant singleton ("[0]"), or a multi-key entry ("left"), does not.
Coverage through a multi-key sequence does not count: replacing the "a"
entry by the chord [CapsShift, A] keeps `KEY_A` reachable (the spec
reading, `specReachedPanics`, sees no violation) yet the implemented
check aborts. -/
theorem claim_C1 :
    startupPanics keyCodes SDL_KeyMap = false ∧
    startupPanics keyCodes (SDL_KeyMap.filter (fun q => !(q.1 == "a"))) = true ∧
    startupPanics keyCodes (SDL_KeyMap.filter (fun q => !(q.1 == "[0]"))) = false ∧
    startupPanics keyCodes (SDL_KeyMap.filter (fun q => !(q.1 == "left"))) = false ∧
    startupPanics keyCodes
      (SDL_KeyMap.map (fun q => if q.1 == "a" then (q.1, [KEY_CapsShift, KEY_A]) else q)) = true ∧
    specReachedPanics keyCodes
      (SDL_KeyMap.map (fun q => if q.1 == "a" then (q.1, [KEY_CapsShift, KEY_A]) else q)) = false := by
  decide

/-- C3, counterexample: changing the audio frequency from 44100 to 22050
with audio enabled does not produce exactly the two-command sequence
[close-all-receivers, register-new-receiver]: the code sends
close-all-receivers twice before registering. -/
theorem claim_C3_counterexample :
    (SetAudioFreq r44 22050 true).2 ≠
      [SpeccyAudioCmd.closeAllAudioReceivers, SpeccyAudioCmd.addAudioReceiver] ∧
    (SetAudioFreq r44 22050 true).2 =
      [SpeccyAudioCmd.closeAllAudioReceivers, SpeccyAudioCmd.closeAllAudioReceivers,
       SpeccyAudioCmd.addAudioReceiver] := by
  decide

/-- C3, amended: changing the audio frequency while audio is enabled (and
the new receiver construction succeeds) sends exactly
[close-all-receivers, close-all-receivers, register-new-receiver]:
every close precedes the registration, never the reverse. -/
theorem claim_C3 (r : RendererAudio) (freq : Nat)
    (h1 : r.audio = true) (h2 : r.audioFreq ≠ freq) :
    (SetAudioFreq r freq true).2 =
      [SpeccyAudioCmd.closeAllAudioReceivers, SpeccyAudioCmd.closeAllAudioReceivers,
       SpeccyAudioCmd.addAudioReceiver] := by
  simp [SetAudioFreq, h2, setAudioParameters, h1]

theorem claim_C3_witness :
    (SetAudioFreq r44 22050 true).2 =
      [SpeccyAudioCmd.closeAllAudioReceivers, SpeccyAudioCmd.closeAllAudioReceivers,
       SpeccyAudioCmd.addAudioReceiver] :=
  claim_C3 r44 22050 rfl (by decide)

/-- C4, counterexample: with `KEY_1` already pressed (its matrix bit 0),
`KeyDown(KEY_1)` followed by `KeyUp(KEY_1)` leaves the bit released (1),
not its pre-down value — so the cycle does not restore every prior
matrix state. -/
theorem claim_C4_counterexample :
    alookup keyCodes KEY_1 = some ⟨3, 1⟩ ∧
    KeyUp (KeyDown pressedOneStates KEY_1) KEY_1 (3 : Fin 8) ≠
      pressedOneStates (3 : Fin 8) := by
  decide

/-- C4, amended: for every logical key `k` and every byte-valued matrix
state in which `k` reads as released, `KeyDown(k)` then `KeyUp(k)`
restores the whole matrix (in particular the bit assigned to `k`); if
`k` was pressed beforehand the bit ends up released instead. -/
theorem claim_C4 {s : KeyStates} {k : Nat} {cell : keyCell}
    (hl : alookup keyCodes k = some cell)
    (hb : ∀ r, s r < 256)
    (hrel : keyReleasedB s k = true) :
    KeyUp (KeyDown s k) k = s :=
  keyDownUp_restores hl hb (keyReleasedB_spec hl hrel)

theorem claim_C4_witness :
    KeyUp (KeyDown initialKeyStates KEY_A) KEY_A = initialKeyStates :=
  @claim_C4 initialKeyStates KEY_A ⟨1, 1⟩ (by decide) (by decide) (by decide)

/-- C5, counterexample: with `KEY_A` already pressed, a press+release
cycle of the mapped device key "a" ends with the bit released, so the
matrix does not equal its initial (pre-press) state. -/
theorem claim_C5_counterexample :
    alookup SDL_KeyMap "a" = some [KEY_A] ∧
    sdlKeyUpEvent (sdlKeyDownEvent pressedAStates "a") "a" (1 : Fin 8) ≠
      pressedAStates (1 : Fin 8) := by
  decide

/-- C5, amended: a mapped key-down event applies `KeyDown` to the
sequence in listed order and a key-up event applies `KeyUp` in reverse
order; a full press+release cycle restores the matrix provided every key
of the sequence read as released beforehand (as in the reset matrix);
events whose key name is not in the table leave the matrix unchanged. -/
theorem claim_C5 (s : KeyStates) (name : String) (sequence : List Nat)
    (hmap : alookup SDL_KeyMap name = some sequence)
    (hb : ∀ r, s r < 256)
    (hrel : ∀ k ∈ sequence, keyReleasedB s k = true) :
    (sdlKeyDownEvent s name = sequence.foldl KeyDown s ∧
     sdlKeyUpEvent s name = sequence.reverse.foldl KeyUp s ∧
     sdlKeyUpEvent (sdlKeyDownEvent s name) name = s) ∧
    ∀ (t : KeyStates) (name2 : String), alookup SDL_KeyMap name2 = none →
      sdlKeyDownEvent t name2 = t ∧ sdlKeyUpEvent t name2 = t := by
  have hdown : sdlKeyDownEvent s name = sequence.foldl KeyDown s := by
    unfold sdlKeyDownEvent
    rw [hmap]
  have hup : ∀ t, sdlKeyUpEvent t name = sequence.reverse.foldl KeyUp t := by
    intro t
    unfold sdlKeyUpEvent
    rw [hmap]
  have hOK : seqOK sequence = true :=
    SDL_KeyMap_seqOK (name, sequence) (alookup_mem _ _ _ hmap)
  refine ⟨⟨hdown, hup s, ?_⟩, ?_⟩
  · rw [hdown, hup]
    rcases sequence with _ | ⟨k1, _ | ⟨k2, _ | ⟨k3, rest⟩⟩⟩
    · simp [seqOK] at hOK
    · have hk1 := hrel k1 (by simp)
      simp only [seqOK] at hOK
      obtain ⟨c1, hc1⟩ := Option.isSome_iff_exists.mp hOK
      show KeyUp (KeyDown s k1) k1 = s
      exact keyDownUp_restores hc1 hb (keyReleasedB_spec hc1 hk1)
    · have hk1 := hrel k1 (by simp)
      have hk2 := hrel k2 (by simp)
      simp only [seqOK] at hOK
      rcases hc1 : alookup keyCodes k1 with _ | c1
      · rw [hc1] at hOK
        simp at hOK
      · rcases hc2 : alookup keyCodes k2 with _ | c2
        · rw [hc1, hc2] at hOK
          simp at hOK
        · rw [hc1, hc2] at hOK
          simp only [] at hOK
          show KeyUp (KeyUp (KeyDown (KeyDown s k1) k2) k2) k1 = s
          exact pair_cycle hc1 hc2 hb hOK
            (keyReleasedB_spec hc1 hk1) (keyReleasedB_spec hc2 hk2)
    · simp [seqOK] at hOK
  · intro t name2 hnone
    constructor
    · unfold sdlKeyDownEvent
      rw [hnone]
    · unfold sdlKeyUpEvent
      rw [hnone]

theorem claim_C5_witness :
    (sdlKeyDownEvent initialKeyStates "left" =
       [KEY_CapsShift, KEY_5].foldl KeyDown initialKeyStates ∧
     sdlKeyUpEvent initialKeyStates "left" =
       [KEY_CapsShift, KEY_5].reverse.foldl KeyUp initialKeyStates ∧
     sdlKeyUpEvent (sdlKeyDownEvent initialKeyStates "left") "left" = initialKeyStates) ∧
    ∀ (t : KeyStates) (name2 : String), alookup SDL_KeyMap name2 = none →
      sdlKeyDownEvent t name2 = t ∧ sdlKeyUpEvent t name2 = t :=
  claim_C5 initialKeyStates "left" [KEY_CapsShift, KEY_5] (by decide) (by decide) (by decide)

/-- C6, counterexample: `KeyDown(KEY_1)` on a matrix where `KEY_1` is
already pressed changes zero bits, not exactly one, although `KEY_1` is
a mapped logical key. -/
theorem claim_C6_counterexample :
    alookup keyCodes KEY_1 = some ⟨3, 1⟩ ∧
    changedBitCount pressedOneStates (KeyDown pressedOneStates KEY_1) = 0 := by
  decide

/-- C6, amended: for every mapped logical key the assigned mask is a
single bit; `KeyDown` writes that bit to 0 and `KeyUp` writes it to 1,
and every other bit of every row of the 8-by-8 matrix is left unchanged.
Exactly one bit changes only when the prior value of the bit differs (the
operations are idempotent). -/
theorem claim_C6 {s : KeyStates} {k : Nat} {cell : keyCell}
    (hl : alookup keyCodes k = some cell) :
    (∃ i < 8, cell.mask = 2 ^ i) ∧
    ∀ (r : Fin 8) (j : Nat), j < 8 →
      ((KeyDown s k r).testBit j =
        if (r : Nat) = cell.row ∧ cell.mask.testBit j = true then false
        else (s r).testBit j) ∧
      ((KeyUp s k r).testBit j =
        if (r : Nat) = cell.row ∧ cell.mask.testBit j = true then true
        else (s r).testBit j) := by
  obtain ⟨hrow, hm, i, hi, hmeq⟩ := cell_facts hl
  refine ⟨⟨i, hi, hmeq⟩, ?_⟩
  intro r j hj
  rw [KeyDown_apply hl, KeyUp_apply hl, hmeq]
  by_cases hr : (r : Nat) = cell.row
  · simp only [if_pos hr, hr, true_and]
    by_cases hij : i = j
    · subst hij
      simp [testBit_andC_pow_self hi, testBit_or_pow_self, Nat.testBit_two_pow_self]
    · simp [testBit_andC_pow_ne hj hij, testBit_or_pow_ne hij,
        Nat.testBit_two_pow_of_ne hij]
  · simp [hr]

theorem claim_C6_witness :
    (∃ i < 8, (⟨3, 1⟩ : keyCell).mask = 2 ^ i) ∧
    ∀ (r : Fin 8) (j : Nat), j < 8 →
      ((KeyDown initialKeyStates KEY_1 r).testBit j =
        if (r : Nat) = (⟨3, 1⟩ : keyCell).row ∧ (⟨3, 1⟩ : keyCell).mask.testBit j = true
        then false else (initialKeyStates r).testBit j) ∧
      ((KeyUp initialKeyStates KEY_1 r).testBit j =
        if (r : Nat) = (⟨3, 1⟩ : keyCell).row ∧ (⟨3, 1⟩ : keyCell).mask.testBit j = true
        then true else (initialKeyStates r).testBit j) :=
  @claim_C6 initialKeyStates KEY_1 ⟨3, 1⟩ (by decide)

/-- C7: `SendLoad` with the supported ROM kind emits exactly the fixed
macro — J (the LOAD keyword key), then Symbol Shift held around two
presses of P (the two quote marks, bracketing nothing), then Enter —
and any other ROM kind performs no key operation at all; the macro run
on the reset matrix returns the matrix to the reset state. -/
theorem claim_C7 (rt : RomType) (h : rt ≠ ROM48) :
    sendLoadEvents ROM48 =
      [KeyEvent.down KEY_J, KeyEvent.up KEY_J,
       KeyEvent.down KEY_SymbolShift,
       KeyEvent.down KEY_P, KeyEvent.up KEY_P,
       KeyEvent.down KEY_P, KeyEvent.up KEY_P,
       KeyEvent.up KEY_SymbolShift,
       KeyEvent.down KEY_Enter, KeyEvent.up KEY_Enter] ∧
    sendLoadEvents rt = [] ∧
    ∀ r, applyKeyEvents initialKeyStates (sendLoadEvents ROM48) r = initialKeyStates r := by
  refine ⟨by decide, ?_, by decide⟩
  simp [sendLoadEvents, h]

theorem claim_C7_witness :
    sendLoadEvents ROM48 =
      [KeyEvent.down KEY_J, KeyEvent.up KEY_J,
       KeyEvent.down KEY_SymbolShift,
       KeyEvent.down KEY_P, KeyEvent.up KEY_P,
       KeyEvent.down KEY_P, KeyEvent.up KEY_P,
       KeyEvent.up KEY_SymbolShift,
       KeyEvent.down KEY_Enter, KeyEvent.up KEY_Enter] ∧
    sendLoadEvents 1 = [] ∧
    ∀ r, applyKeyEvents initialKeyStates (sendLoadEvents ROM48) r = initialKeyStates r :=
  claim_C7 1 (by decide)

/-- C2: `KeyPressSequence(k1..kn)` returns a completion channel whose
capacity is exactly n; the command loop then drains the n press commands
with every completion send accepted into the buffer (never blocking,
whether or not a consumer ever reads the channel), leaving exactly one
completion per key, in submission order. -/
theorem claim_C2 (kb0 : KeyboardActor) (ks : List Nat) (h : kb0.queue = []) :
    (KeyPressSequence kb0 ks).2.capacity = ks.length ∧
    ∃ s2, runCommandLoop (KeyPressSequence kb0 ks).1.matrix (KeyPressSequence kb0 ks).2
        (KeyPressSequence kb0 ks).1.queue = some (s2, ⟨ks.length, ks⟩) := by
  refine ⟨rfl, ?_⟩
  have h2 := runCommandLoop_total ks kb0.matrix ⟨ks.length, []⟩ (by simp)
  simp only [KeyPressSequence, mkChan, h, List.nil_append]
  simpa using h2

theorem claim_C2_witness :
    (KeyPressSequence ⟨initialKeyStates, []⟩ [KEY_1, KEY_2, KEY_3]).2.capacity = 3 ∧
    ∃ s2, runCommandLoop (KeyPressSequence ⟨initialKeyStates, []⟩ [KEY_1, KEY_2, KEY_3]).1.matrix
        (KeyPressSequence ⟨initialKeyStates, []⟩ [KEY_1, KEY_2, KEY_3]).2
        (KeyPressSequence ⟨initialKeyStates, []⟩ [KEY_1, KEY_2, KEY_3]).1.queue =
      some (s2, ⟨3, [KEY_1, KEY_2, KEY_3]⟩) :=
  claim_C2 ⟨initialKeyStates, []⟩ [KEY_1, KEY_2, KEY_3] rfl

/-- C8: a digital-joystick axis event with positive value sets the
positive-direction bit of the axis (right for axis 0, the up-mapped bit for
axis 1), a negative value sets the negative-direction bit, and value 0
clears both direction bits of that axis, in every case leaving all other
bits of the Kempston byte unchanged; joystick button 0 sets the fire bit
on press (`State > 0`) and clears it on release. -/
theorem claim_C8 (s : Nat) (v : Int) (st : Nat) :
    ((handleJoyAxisEvent s 0 v).testBit 0 =
      (if 0 < v then true else if v < 0 then s.testBit 0 else false)) ∧
    ((handleJoyAxisEvent s 0 v).testBit 1 =
      (if 0 < v then s.testBit 1 else if v < 0 then true else false)) ∧
    (∀ j, j < 8 → j ≠ 0 → j ≠ 1 → (handleJoyAxisEvent s 0 v).testBit j = s.testBit j) ∧
    ((handleJoyAxisEvent s 1 v).testBit 3 =
      (if 0 < v then true else if v < 0 then s.testBit 3 else false)) ∧
    ((handleJoyAxisEvent s 1 v).testBit 2 =
      (if 0 < v then s.testBit 2 else if v < 0 then true else false)) ∧
    (∀ j, j < 8 → j ≠ 2 → j ≠ 3 → (handleJoyAxisEvent s 1 v).testBit j = s.testBit j) ∧
    ((handleJoyButtonEvent s 0 st).testBit 4 = (if 0 < st then true else false)) ∧
    (∀ j, j < 8 → j ≠ 4 → (handleJoyButtonEvent s 0 st).testBit j = s.testBit j) := by
  have hR : KEMPSTON_RIGHT = 2 ^ 0 := rfl
  have hL : KEMPSTON_LEFT = 2 ^ 1 := rfl
  have hD : KEMPSTON_DOWN = 2 ^ 2 := rfl
  have hU : KEMPSTON_UP = 2 ^ 3 := rfl
  have hF : KEMPSTON_FIRE = 2 ^ 4 := rfl
  have hbutton :
      ((handleJoyButtonEvent s 0 st).testBit 4 = (if 0 < st then true else false)) ∧
      (∀ j, j < 8 → j ≠ 4 → (handleJoyButtonEvent s 0 st).testBit j = s.testBit j) := by
    rcases Nat.eq_zero_or_pos st with hst | hst
    · have eb : handleJoyButtonEvent s 0 st = s &&& (0xff ^^^ 2 ^ 4) := by
        unfold handleJoyButtonEvent KempstonUp
        rw [if_pos rfl, if_neg (by omega), hF]
      subst hst
      rw [eb]
      refine ⟨?_, ?_⟩
      · rw [if_neg (by omega)]
        exact testBit_andC_pow_self (by omega)
      · intro j hj hj4
        exact testBit_andC_pow_ne hj (fun he => hj4 he.symm)
    · have eb : handleJoyButtonEvent s 0 st = s ||| 2 ^ 4 := by
        unfold handleJoyButtonEvent KempstonDown
        rw [if_pos rfl, if_pos hst, hF]
      rw [eb, if_pos hst]
      refine ⟨testBit_or_pow_self, ?_⟩
      intro j hj hj4
      exact testBit_or_pow_ne (fun he => hj4 he.symm)
  rcases lt_trichotomy v 0 with hv | hv | hv
  · have hvp : ¬(0 < v) := by omega
    have e0 : handleJoyAxisEvent s 0 v = s ||| 2 ^ 1 := by
      unfold handleJoyAxisEvent KempstonDown
      rw [if_pos rfl, if_neg hvp, if_pos hv, hL]
    have e1 : handleJoyAxisEvent s 1 v = s ||| 2 ^ 2 := by
      unfold handleJoyAxisEvent KempstonDown
      rw [if_neg (by omega), if_pos rfl, if_neg hvp, if_pos hv, hD]
    rw [e0, e1]
    simp only [if_neg hvp, if_pos hv]
    refine ⟨testBit_or_pow_ne (by omega), testBit_or_pow_self,
      ?_, testBit_or_pow_ne (by omega), testBit_or_pow_self, ?_,
      hbutton.1, hbutton.2⟩
    · intro j hj hj0 hj1
      exact testBit_or_pow_ne (fun he => hj1 he.symm)
    · intro j hj hj2 hj3
      exact testBit_or_pow_ne (fun he => hj2 he.symm)
  · have hvp : ¬(0 < v) := by omega
    have hvn : ¬(v < 0) := by omega
    have e0 : handleJoyAxisEvent s 0 v = (s &&& (0xff ^^^ 2 ^ 0)) &&& (0xff ^^^ 2 ^ 1) := by
      unfold handleJoyAxisEvent KempstonUp
      rw [if_pos rfl, if_neg hvp, if_neg hvn, hR, hL]
    have e1 : handleJoyAxisEvent s 1 v = (s &&& (0xff ^^^ 2 ^ 3)) &&& (0xff ^^^ 2 ^ 2) := by
      unfold handleJoyAxisEvent KempstonUp
      rw [if_neg (by omega), if_pos rfl, if_neg hvp, if_neg hvn, hU, hD]
    rw [e0, e1]
    simp only [if_neg hvp, if_neg hvn]
    refine ⟨?_, ?_, ?_, ?_, ?_, ?_, hbutton.1, hbutton.2⟩
    · rw [testBit_andC_pow_ne (by omega) (by omega)]
      exact testBit_andC_pow_self (by omega)
    · exact testBit_andC_pow_self (by omega)
    · intro j hj hj0 hj1
      rw [testBit_andC_pow_ne hj (fun he => hj1 he.symm)]
      exact testBit_andC_pow_ne hj (fun he => hj0 he.symm)
    · rw [testBit_andC_pow_ne (by omega) (by omega)]
      exact testBit_andC_pow_self (by omega)
    · exact testBit_andC_pow_self (by omega)
    · intro j hj hj2 hj3
      rw [testBit_andC_pow_ne hj (fun he => hj2 he.symm)]
      exact testBit_andC_pow_ne hj (fun he => hj3 he.symm)
  · have e0 : handleJoyAxisEvent s 0 v = s ||| 2 ^ 0 := by
      unfold handleJoyAxisEvent KempstonDown
      rw [if_pos rfl, if_pos hv, hR]
    have e1 : handleJoyAxisEvent s 1 v = s ||| 2 ^ 3 := by
      unfold handleJoyAxisEvent KempstonDown
      rw [if_neg (by omega), if_pos rfl, if_pos hv, hU]
    rw [e0, e1]
    simp only [if_pos hv]
    refine ⟨testBit_or_pow_self, testBit_or_pow_ne (by omega),
      ?_, testBit_or_pow_self, testBit_or_pow_ne (by omega), ?_,
      hbutton.1, hbutton.2⟩
    · intro j hj hj0 hj1
      exact testBit_or_pow_ne (fun he => hj0 he.symm)
    · intro j hj hj2 hj3
      exact testBit_or_pow_ne (fun he => hj3 he.symm)

theorem claim_C8_witness :
    ((handleJoyAxisEvent 0xff 0 1).testBit 0 =
      (if (0 : Int) < 1 then true else if (1 : Int) < 0 then (0xff : Nat).testBit 0 else false)) ∧
    ((handleJoyButtonEvent 0xff 0 1).testBit 4 = (if 0 < 1 then true else false)) ∧
    (handleJoyAxisEvent 0xff 0 1).testBit 5 = (0xff : Nat).testBit 5 :=
  ⟨(claim_C8 0xff 1 1).1, (claim_C8 0xff 1 1).2.2.2.2.2.2.1,
   (claim_C8 0xff 1 1).2.2.1 5 (by omega) (by omega) (by omega)⟩
